import Mathlib

/-!
# Verification of the RealtimeVoiceChat PCM playback pipeline

Shallow embedding of the client-side audio streaming playback pipeline in
`src/RealtimeVoiceChatMP3.tsx`: the `audioChunk` socket handler (format
filter, base64 → Int16 little-endian → Float32 decode, enqueue, wake) and
the `playNextChunk` drain loop guarded by the `isPlaying` flag.

Modelling conventions:
- Decoded samples are rationals (ℚ); `int16 / 32768` is exact in binary
  floating point for every int16, so ℚ is a faithful value model.
- The single-threaded cooperative concurrency of the browser is modelled as
  a small-step system: each event (`audioChunk` arrival, pending `setTimeout`
  firing, idle time passing, effect cleanup) runs one atomic synchronous
  segment of JS code.  The only suspension point in the source is the
  `await new Promise((r) => setTimeout(r, duration))` inside the drain loop,
  so a drain-loop continuation is fully described by its wake deadline.
- Time is nominal and in seconds (the source computes `buffer.duration * 1000`
  milliseconds and sleeps exactly that; we keep seconds, a pure rescaling).
- `ctx.createBuffer` / `source.start` failures (the audio output device
  rejecting a submission) are external nondeterminism, modelled by an oracle
  `dev : ℕ → Bool` indexed by the submission-attempt counter.  The source has
  no try/catch in the loop, so a rejected submission kills the async
  continuation with the `isPlaying` flag left untouched.
- Throws inside the `audioChunk` handler (`atob` on malformed base64,
  `new Int16Array` on an odd byte length) happen before any state mutation;
  the handler is embedded as an `Except`-valued function and the event
  dispatcher leaves the state unchanged when the handler throws, matching
  the exception escaping the socket.io listener.
- `arrived`, `dequeued`, `played`, `drains` and `attempts` are history /
  instrumentation fields recording the observable actions (valid fragments
  enqueued, fragments shifted off the queue, successful `source.start`
  submissions with their nominal start times and the id of the drain loop
  that made them); they are written exactly where the source performs the
  corresponding action and read by no definition.
-/

namespace RealtimeVoiceChat

/-- A decoded fragment: the `Float32Array` of normalized samples. -/
abbrev Frag := List ℚ

/-- Source: `const SAMPLE_RATE = 24000;` -/
def SAMPLE_RATE : ℕ := 24000

/-- Nominal playback duration of a fragment in seconds:
`buffer.duration = chunk.length / SAMPLE_RATE`. -/
def durQ (f : Frag) : ℚ := (f.length : ℚ) / (SAMPLE_RATE : ℚ)

/-! ## `atob`: forgiving base64 decoding (WHATWG infra), as used at line 104 -/

/-- ASCII whitespace, removed by forgiving-base64 before decoding. -/
def isB64Ws (c : Char) : Bool :=
  (c = ' ') || (c = '\t') || (c = '\n') || (c = '\r') || (c = '\x0c')

/-- The value of one character of the standard base64 alphabet. -/
def b64Index (c : Char) : Option ℕ :=
  if 'A' ≤ c ∧ c ≤ 'Z' then some (c.toNat - 'A'.toNat)
  else if 'a' ≤ c ∧ c ≤ 'z' then some (c.toNat - 'a'.toNat + 26)
  else if '0' ≤ c ∧ c ≤ '9' then some (c.toNat - '0'.toNat + 52)
  else if c = '+' then some 62
  else if c = '/' then some 63
  else none

/-- Bit-accumulator core of forgiving-base64: six bits per character, a byte
is emitted whenever eight or more bits are buffered; leftover bits of a
two- or three-character tail group are discarded. -/
def b64Core : List Char → ℕ → ℕ → Option (List ℕ)
  | [], _, _ => some []
  | c :: cs, acc, nbits =>
    match b64Index c with
    | none => none
    | some i =>
      let acc2 := acc * 64 + i
      let nb := nbits + 6
      if 8 ≤ nb then
        match b64Core cs (acc2 % 2 ^ (nb - 8)) (nb - 8) with
        | none => none
        | some bs => some (acc2 / 2 ^ (nb - 8) :: bs)
      else
        b64Core cs acc2 nb

/-- Strip one or two trailing `=` padding characters. -/
def stripPad (l : List Char) : List Char :=
  match l.reverse with
  | '=' :: '=' :: r => r.reverse
  | '=' :: r => r.reverse
  | _ => l

/-- Model of `window.atob`: forgiving-base64 decode to a byte sequence; `none` models
the `InvalidCharacterError` throw on malformed input. -/
def atob (s : String) : Option (List ℕ) :=
  let d0 := s.data.filter (fun c => !(isB64Ws c))
  let d1 := if d0.length % 4 = 0 then stripPad d0 else d0
  if d1.length % 4 = 1 then none else b64Core d1 0 0

/-! ## PCM16 → Float32 decode (lines 104–111) -/

/-- Reinterpret two bytes as one signed 16-bit little-endian integer
(`new Int16Array(buffer)` element). -/
def toInt16 (lo hi : ℕ) : ℤ :=
  if lo % 256 + 256 * (hi % 256) < 32768 then ((lo % 256 + 256 * (hi % 256) : ℕ) : ℤ)
  else ((lo % 256 + 256 * (hi % 256) : ℕ) : ℤ) - 65536

/-- Source loop `for (let i = 0; i < pcm.length; i++) float32[i] = pcm[i] / 32768;`
applied to the byte sequence read pairwise little-endian. -/
def bytesToSamples : List ℕ → Frag
  | lo :: hi :: rest => ((toInt16 lo hi : ℚ) / 32768) :: bytesToSamples rest
  | [] => []
  | [_] => []

/-- The decode stage of the `audioChunk` handler: base64-decode, then
reinterpret as int16 little-endian and normalize.  `none` models a throw:
`atob` on malformed base64, or the `new Int16Array(buffer)` `RangeError`
when the decoded byte length is odd. -/
def decodeFragment (audio : String) : Option Frag :=
  match atob audio with
  | none => none
  | some bytes => if bytes.length % 2 = 0 then some (bytesToSamples bytes) else none

/-! ## Pipeline state -/

/-- One successful submission to the audio output device (`source.start()`):
which drain loop made it, at what nominal time, and the fragment. -/
structure Submission where
  drain : ℕ
  time : ℚ
  frag : Frag
deriving DecidableEq

/-- The mutable state of the component relevant to the playback pipeline,
plus history fields (see the module docstring). -/
structure PipeState where
  /-- Source: `queueRef.current` -/
  queue : List Frag
  /-- Source: `isPlayingRef.current` -/
  isPlaying : Bool
  /-- Source: `audioCtxRef.current` is non-null -/
  hasCtx : Bool
  /-- the socket has not been disconnected by the effect cleanup -/
  socketOpen : Bool
  /-- current nominal time in seconds -/
  now : ℚ
  /-- wake deadlines of suspended drain-loop continuations (the pending
  `setTimeout`s); the source intends at most one, which we prove -/
  tasks : List ℚ
  /-- history: number of drain loops ever entered (current drain id) -/
  drains : ℕ
  /-- history: number of submission attempts made (indexes the device oracle) -/
  attempts : ℕ
  /-- history: successful submissions in order -/
  played : List Submission
  /-- history: fragments shifted off the queue, in order -/
  dequeued : List Frag
  /-- history: valid fragments pushed onto the queue, in order -/
  arrived : List Frag
deriving DecidableEq

/-- One iteration of the drain-loop body, from the `while` condition check:
exit and clear `isPlaying` if the queue is empty; otherwise shift the front
fragment and attempt to submit it.  On success the continuation suspends
until `now + durQ f` (the `await` of the `setTimeout`); on device rejection
the throw propagates out of the async body, so no continuation survives and
`isPlaying` is left as it was. -/
def iterOnce (dev : ℕ → Bool) (s : PipeState) : PipeState :=
  match s.queue with
  | [] => { s with isPlaying := false }
  | f :: rest =>
    if dev s.attempts then
      { s with
        queue := rest
        dequeued := s.dequeued ++ [f]
        played := s.played ++ [⟨s.drains, s.now, f⟩]
        attempts := s.attempts + 1
        tasks := s.tasks ++ [s.now + durQ f] }
    else
      { s with
        queue := rest
        dequeued := s.dequeued ++ [f]
        attempts := s.attempts + 1 }

/-- Source function `playNextChunk` (lines 22–45): the synchronous prefix of the async
function up to its first suspension point.  Check-then-set of `isPlaying`
is atomic because there is no `await` between lines 23 and 27. -/
def playNextChunk (dev : ℕ → Bool) (s : PipeState) : PipeState :=
  if s.isPlaying then s
  else if s.hasCtx = false ∨ s.queue = [] then s
  else iterOnce dev { s with isPlaying := true, drains := s.drains + 1 }

/-- A pending `setTimeout` fires: the suspended drain continuation resumes at
its nominal deadline and runs one more loop iteration. -/
def fireTimer (dev : ℕ → Bool) (s : PipeState) : PipeState :=
  match s.tasks with
  | [] => s
  | d :: rest => iterOnce dev { s with tasks := rest, now := d }

/-- Fire the pending timer `n` times. -/
def resumeN (dev : ℕ → Bool) : ℕ → PipeState → PipeState
  | 0, s => s
  | n + 1, s => resumeN dev n (fireTimer dev s)

/-- The `audioChunk` socket handler (lines 100–115).  `Except.error` models
an exception escaping the listener; every throwing operation precedes the
`queueRef.current.push`, so a throw leaves the state untouched. -/
def handleAudioChunk (dev : ℕ → Bool) (format audio : String) (s : PipeState) :
    Except Unit PipeState :=
  if format ≠ "pcm16" then .ok s
  else
    match decodeFragment audio with
    | none => .error ()
    | some f =>
      .ok (playNextChunk dev
        { s with queue := s.queue ++ [f], arrived := s.arrived ++ [f] })

/-- The events of the cooperative interleaving model. -/
inductive Ev where
  /-- an `audioChunk` socket event with its payload fields
  (`sampleRate` is received and ignored, as in the source) -/
  | audio (format audio : String) (sampleRate : ℕ)
  /-- the pending `setTimeout` of the suspended drain loop fires -/
  | timer
  /-- idle time passes (only meaningful while no drain is suspended) -/
  | tick (d : ℚ)
  /-- the `useEffect` cleanup runs: `socket.disconnect()` (line 119) -/
  | cleanup

/-- One atomic step of the system under event `e`. -/
def stepEv (dev : ℕ → Bool) (e : Ev) (s : PipeState) : PipeState :=
  match e with
  | .audio format audio _ =>
    if s.socketOpen then
      match handleAudioChunk dev format audio s with
      | .ok s2 => s2
      | .error _ => s
    else s
  | .timer => fireTimer dev s
  | .tick d => if s.tasks = [] ∧ 0 ≤ d then { s with now := s.now + d } else s
  | .cleanup => { s with socketOpen := false }

/-- Component state right after the mount effect ran: audio context created,
queue empty, not playing. -/
def init : PipeState :=
  { queue := [], isPlaying := false, hasCtx := true, socketOpen := true,
    now := 0, tasks := [], drains := 0, attempts := 0,
    played := [], dequeued := [], arrived := [] }

/-- Run a sequence of events from the initial state. -/
def run (dev : ℕ → Bool) (evs : List Ev) : PipeState :=
  evs.foldl (fun s e => stepEv dev e s) init

/-- A device that accepts every submission. -/
def devAlwaysOk : ℕ → Bool := fun _ => true

/-- A device that rejects every submission
(`ctx.createBuffer` / `source.start` throwing). -/
def devAlwaysReject : ℕ → Bool := fun _ => false

/-- A concrete trace: the device rejects the submission of the first valid
fragment (`"AAA="`, one zero sample) while a second valid fragment
(`"//8="`, one sample of value `-1/32768`) arrives and is queued; two
timer opportunities follow. -/
def rejectEvs : List Ev :=
  [.audio "pcm16" "AAA=" 24000, .audio "pcm16" "//8=" 24000, .timer, .timer]

/-- A concrete trace: two valid fragments arrive (the first starts a drain,
the second is queued behind it), then the effect cleanup (the only teardown
the component has) runs while the drain is suspended, then the pending
timer fires. -/
def cancelEvs : List Ev :=
  [.audio "pcm16" "AAA=" 24000, .audio "pcm16" "//8=" 24000, .cleanup, .timer]

/-! ## Gapless scheduling predicate -/

/-- Adjacent submissions made by the same drain loop are scheduled
back-to-back: the successor starts exactly at the nominal end time of the
predecessor (`sample_count / sample_rate` seconds later). -/
def Gapless : List Submission → Prop
  | e1 :: e2 :: rest =>
      (e2.drain = e1.drain → e2.time = e1.time + durQ e1.frag) ∧ Gapless (e2 :: rest)
  | _ => True

/-- A suspended drain loop sleeps exactly for the playback duration of the
submission it just made: its wake deadline is that submission's nominal
start time plus `sample_count / sample_rate` seconds. -/
def SuspendExact (s : PipeState) : Prop :=
  ∀ d ∈ s.tasks, ∀ e, s.played.getLast? = some e → d = e.time + durQ e.frag

/-- From a state with a suspended drain loop, letting its timer fire
`queue.length + 1` times plays the whole current queue in order, all tagged
with the current drain id (the same still-running loop), and then exits
with `isPlaying` cleared (assuming the device accepts every submission). -/
def DrainsQueue (s : PipeState) : Prop :=
  ∃ ns : List Submission,
    (resumeN devAlwaysOk (s.queue.length + 1) s).isPlaying = false ∧
    (resumeN devAlwaysOk (s.queue.length + 1) s).queue = [] ∧
    (resumeN devAlwaysOk (s.queue.length + 1) s).played = s.played ++ ns ∧
    ns.map Submission.frag = s.queue ∧
    (∀ e ∈ ns, e.drain = s.drains)

lemma gapless_append : ∀ (l : List Submission) (e2 : Submission),
    Gapless l →
    (∀ e, l.getLast? = some e → e2.drain = e.drain → e2.time = e.time + durQ e.frag) →
    Gapless (l ++ [e2])
  | [], _, _, _ => trivial
  | [e1], e2, _, hlast => ⟨hlast e1 rfl, trivial⟩
  | a :: b :: l3, e2, h, hlast => by
      refine ⟨h.1, gapless_append (b :: l3) e2 h.2 ?_⟩
      intro e he
      exact hlast e (by rw [List.getLast?_cons_cons]; exact he)

/-! ## The inductive invariant -/

/-- The global invariant of the pipeline, preserved by every event. -/
structure Inv (dev : ℕ → Bool) (s : PipeState) : Prop where
  /-- at most one drain-loop continuation is suspended (single-flight) -/
  single : s.tasks.length ≤ 1
  /-- a suspended drain loop implies the `isPlaying` flag is set -/
  taskPlaying : s.tasks ≠ [] → s.isPlaying = true
  /-- the queue holds exactly the enqueued fragments not yet dequeued,
  in arrival order (FIFO) -/
  fifo : s.arrived = s.dequeued ++ s.queue
  /-- if the device never rejects, every dequeued fragment was submitted -/
  playedAll : (∀ n, dev n = true) → s.dequeued = s.played.map Submission.frag
  /-- submissions of one drain are scheduled gaplessly -/
  gapless : Gapless s.played
  /-- every recorded submission was made by an already-started drain -/
  drainLe : ∀ e ∈ s.played, e.drain ≤ s.drains
  /-- a suspended drain wakes exactly at the nominal end time of the
  submission it just made -/
  taskGap : ∀ d, s.tasks = [d] →
    ∃ e, s.played.getLast? = some e ∧ e.drain = s.drains ∧ d = e.time + durQ e.frag

lemma inv_init (dev : ℕ → Bool) : Inv dev init := by
  refine ⟨by simp [init], by simp [init], by simp [init], by simp [init],
    by simp [init, Gapless], by simp [init], ?_⟩
  intro d hd
  simp [init] at hd

lemma inv_iterOnce (dev : ℕ → Bool) (s : PipeState)
    (hplay : s.isPlaying = true)
    (htasks : s.tasks = [])
    (hfifo : s.arrived = s.dequeued ++ s.queue)
    (hAll : (∀ n, dev n = true) → s.dequeued = s.played.map Submission.frag)
    (hgap : Gapless s.played)
    (hdrainLe : ∀ e ∈ s.played, e.drain ≤ s.drains)
    (hlast : ∀ e, s.played.getLast? = some e → e.drain = s.drains →
      s.now = e.time + durQ e.frag) :
    Inv dev (iterOnce dev s) := by
  cases hq : s.queue with
  | nil =>
    refine ⟨?_, ?_, ?_, ?_, ?_, ?_, ?_⟩ <;>
      simp only [iterOnce, hq] <;> simp_all
  | cons f rest =>
    by_cases hdev : dev s.attempts
    · have hres : iterOnce dev s =
        { s with
          queue := rest
          dequeued := s.dequeued ++ [f]
          played := s.played ++ [⟨s.drains, s.now, f⟩]
          attempts := s.attempts + 1
          tasks := s.tasks ++ [s.now + durQ f] } := by
        simp only [iterOnce, hq, hdev, if_true]
      rw [hres]
      refine ⟨?_, ?_, ?_, ?_, ?_, ?_, ?_⟩
      · simp [htasks]
      · intro _; exact hplay
      · simp only [hfifo, hq, List.append_assoc, List.singleton_append]
      · intro hd
        simp only [List.map_append, List.map_cons, List.map_nil]
        rw [hAll hd]
      · refine gapless_append _ _ hgap ?_
        intro e he hdr
        have h1 : e.drain = s.drains := by
          simpa using hdr.symm
        simpa using hlast e he h1
      · intro e he
        rcases List.mem_append.1 he with h1 | h1
        · exact hdrainLe e h1
        · simp only [List.mem_singleton] at h1
          subst h1; simp
      · intro d hd
        refine ⟨⟨s.drains, s.now, f⟩, List.getLast?_concat _, rfl, ?_⟩
        simp only [htasks, List.nil_append, List.cons.injEq] at hd
        simp [← hd.1]
    · have hres : iterOnce dev s =
        { s with
          queue := rest
          dequeued := s.dequeued ++ [f]
          attempts := s.attempts + 1 } := by
        simp only [iterOnce, hq, hdev, if_false, Bool.false_eq_true]
      rw [hres]
      refine ⟨?_, ?_, ?_, ?_, ?_, ?_, ?_⟩
      · simp [htasks]
      · intro h; exact absurd htasks h
      · simp only [hfifo, hq, List.append_assoc, List.singleton_append]
      · intro hd
        exact absurd (hd s.attempts) (by simp [hdev])
      · exact hgap
      · exact hdrainLe
      · intro d hd
        rw [htasks] at hd
        exact absurd hd (by simp)

lemma inv_playNextChunk (dev : ℕ → Bool) (s : PipeState) (h : Inv dev s) :
    Inv dev (playNextChunk dev s) := by
  unfold playNextChunk
  by_cases h1 : s.isPlaying
  · simpa [h1] using h
  · simp only [h1, if_false, Bool.false_eq_true]
    by_cases h2 : s.hasCtx = false ∨ s.queue = []
    · simpa [h2] using h
    · simp only [h2, if_false]
      have htasks : s.tasks = [] := by
        by_contra hne
        exact h1 (by simpa using h.taskPlaying hne)
      refine inv_iterOnce dev _ rfl htasks h.fifo h.playedAll h.gapless ?_ ?_
      · intro e he
        exact le_trans (h.drainLe e he) (Nat.le_succ _)
      · intro e he hdr
        have hmem : e ∈ s.played := by
          obtain ⟨hne, hex⟩ := List.mem_getLast?_eq_getLast (l := s.played) (x := e) he
          rw [hex]
          exact List.getLast_mem hne
        have hle := h.drainLe e hmem
        have hdr2 : e.drain = s.drains + 1 := by simpa using hdr
        exact absurd hdr2 (by omega)

lemma inv_stepEv (dev : ℕ → Bool) (e : Ev) (s : PipeState) (h : Inv dev s) :
    Inv dev (stepEv dev e s) := by
  cases e with
  | audio format audio sr =>
    simp only [stepEv]
    by_cases hopen : s.socketOpen
    · simp only [hopen, if_true]
      unfold handleAudioChunk
      by_cases hfmt : format ≠ "pcm16"
      · simpa [hfmt] using h
      · simp only [hfmt, if_false]
        cases hdec : decodeFragment audio with
        | none => exact h
        | some f =>
          apply inv_playNextChunk
          refine ⟨h.single, h.taskPlaying, ?_, h.playedAll, h.gapless, h.drainLe, h.taskGap⟩
          simp only [h.fifo, List.append_assoc]
    · simpa [hopen] using h
  | timer =>
    simp only [stepEv]
    cases ht : s.tasks with
    | nil => simpa [fireTimer, ht] using h
    | cons d rest =>
      have hrest : rest = [] := by
        have := h.single
        rw [ht] at this
        simpa using this
      subst hrest
      simp only [fireTimer, ht]
      have hplay : s.isPlaying = true := h.taskPlaying (by rw [ht]; simp)
      obtain ⟨e0, hl, hdr, hd⟩ := h.taskGap d ht
      refine inv_iterOnce dev _ hplay rfl h.fifo h.playedAll h.gapless h.drainLe ?_
      intro e he _
      rw [hl] at he
      injection he with he
      subst he
      exact hd
  | tick δ =>
    simp only [stepEv]
    split
    · exact ⟨h.single, h.taskPlaying, h.fifo, h.playedAll, h.gapless, h.drainLe, h.taskGap⟩
    · exact h
  | cleanup =>
    exact ⟨h.single, h.taskPlaying, h.fifo, h.playedAll, h.gapless, h.drainLe, h.taskGap⟩

lemma inv_foldl (dev : ℕ → Bool) :
    ∀ (evs : List Ev) (s : PipeState), Inv dev s →
      Inv dev (evs.foldl (fun s e => stepEv dev e s) s)
  | [], _, h => h
  | e :: evs, s, h => inv_foldl dev evs _ (inv_stepEv dev e s h)

lemma inv_run (dev : ℕ → Bool) (evs : List Ev) : Inv dev (run dev evs) :=
  inv_foldl dev evs init (inv_init dev)

/-! ## Auxiliary lemmas -/

lemma playNextChunk_busy (dev : ℕ → Bool) (s : PipeState) (h : s.isPlaying = true) :
    playNextChunk dev s = s := by
  simp [playNextChunk, h]

lemma suspend_exact_of_inv (dev : ℕ → Bool) (s : PipeState) (h : Inv dev s) :
    SuspendExact s := by
  intro d hd e he
  have htasks : s.tasks = [d] := by
    cases ht : s.tasks with
    | nil => rw [ht] at hd; simp at hd
    | cons a rest =>
      have hlen := h.single
      rw [ht] at hlen
      simp only [List.length_cons] at hlen
      have hrest : rest = [] := List.length_eq_zero.1 (by omega)
      subst hrest
      rw [ht] at hd
      simp only [List.mem_singleton] at hd
      rw [hd]
  obtain ⟨e0, hl, _, hgap⟩ := h.taskGap d htasks
  rw [hl] at he
  injection he with he
  rw [← he]
  exact hgap

lemma drain_all (q : List Frag) :
    ∀ (s : PipeState) (d : ℚ), s.queue = q → s.tasks = [d] →
    ∃ ns : List Submission,
      (resumeN devAlwaysOk (q.length + 1) s).isPlaying = false ∧
      (resumeN devAlwaysOk (q.length + 1) s).queue = [] ∧
      (resumeN devAlwaysOk (q.length + 1) s).played = s.played ++ ns ∧
      ns.map Submission.frag = q ∧
      (∀ e ∈ ns, e.drain = s.drains) := by
  induction q with
  | nil =>
    intro s d hq ht
    refine ⟨[], ?_, ?_, ?_, rfl, by simp⟩ <;>
      simp [resumeN, fireTimer, ht, iterOnce, hq]
  | cons f q2 ih =>
    intro s d hq ht
    have hstep : fireTimer devAlwaysOk s =
        { s with
          queue := q2
          now := d
          tasks := [d + durQ f]
          dequeued := s.dequeued ++ [f]
          played := s.played ++ [⟨s.drains, d, f⟩]
          attempts := s.attempts + 1 } := by
      simp [fireTimer, ht, iterOnce, hq, devAlwaysOk]
    have hres : resumeN devAlwaysOk ((f :: q2).length + 1) s =
        resumeN devAlwaysOk (q2.length + 1) (fireTimer devAlwaysOk s) := by
      simp [resumeN]
    obtain ⟨ns2, h1, h2, h3, h4, h5⟩ :=
      ih ({ s with
          queue := q2
          now := d
          tasks := [d + durQ f]
          dequeued := s.dequeued ++ [f]
          played := s.played ++ [⟨s.drains, d, f⟩]
          attempts := s.attempts + 1 }) (d + durQ f) rfl rfl
    rw [hres, hstep]
    refine ⟨⟨s.drains, d, f⟩ :: ns2, h1, h2, ?_, ?_, ?_⟩
    · rw [h3]
      simp
    · simp [h4]
    · intro e he
      rcases List.mem_cons.1 he with h6 | h6
      · subst h6; rfl
      · exact h5 e h6

/-! ## Decode lemmas -/

lemma bytesToSamples_length : ∀ bs : List ℕ, (bytesToSamples bs).length = bs.length / 2
  | [] => rfl
  | [_] => by simp [bytesToSamples]
  | _ :: _ :: rest => by
    simp only [bytesToSamples, List.length_cons]
    rw [bytesToSamples_length rest]
    omega

lemma toInt16_bounds (lo hi : ℕ) : -32768 ≤ toInt16 lo hi ∧ toInt16 lo hi < 32768 := by
  unfold toInt16
  have h1 : lo % 256 < 256 := Nat.mod_lt _ (by norm_num)
  have h2 : hi % 256 < 256 := Nat.mod_lt _ (by norm_num)
  split <;> constructor <;> omega

lemma sample_range (z : ℤ) (h1 : -32768 ≤ z) (h2 : z < 32768) :
    -1 ≤ (z : ℚ) / 32768 ∧ (z : ℚ) / 32768 < 1 := by
  have h1q : (-32768 : ℚ) ≤ (z : ℚ) := by exact_mod_cast h1
  have h2q : (z : ℚ) < 32768 := by exact_mod_cast h2
  constructor
  · rw [le_div_iff₀ (by norm_num : (0 : ℚ) < 32768)]
    linarith
  · rw [div_lt_one (by norm_num : (0 : ℚ) < 32768)]
    linarith

lemma bytesToSamples_mem_range :
    ∀ (bs : List ℕ) (v : ℚ), v ∈ bytesToSamples bs → -1 ≤ v ∧ v < 1
  | lo :: hi :: rest, v, hv => by
    rcases List.mem_cons.1 hv with h | h
    · subst h
      obtain ⟨hb1, hb2⟩ := toInt16_bounds lo hi
      exact sample_range _ (by exact_mod_cast hb1) (by exact_mod_cast hb2)
    · exact bytesToSamples_mem_range rest v h

lemma bytesToSamples_getElem? :
    ∀ (bs : List ℕ) (i : ℕ), 2 * i + 1 < bs.length →
      (bytesToSamples bs)[i]? =
        some ((toInt16 (bs.getD (2 * i) 0) (bs.getD (2 * i + 1) 0) : ℚ) / 32768)
  | lo :: hi :: rest, 0, _ => by
    simp [bytesToSamples]
  | lo :: hi :: rest, i + 1, h => by
    have hlt : 2 * i + 1 < rest.length := by
      simp only [List.length_cons] at h
      omega
    have h2 : 2 * (i + 1) = 2 * i + 1 + 1 := by ring
    have h3 : 2 * (i + 1) + 1 = 2 * i + 1 + 1 + 1 := by ring
    rw [h3, h2]
    simp only [bytesToSamples, List.getElem?_cons_succ, List.getD_cons_succ]
    exact bytesToSamples_getElem? rest i hlt
  | [], i, h => by simp at h
  | [_], i, h => by
    simp only [List.length_cons, List.length_nil] at h
    omega

lemma iterOnce_socket (dev : ℕ → Bool) (s : PipeState) :
    iterOnce dev { s with socketOpen := false } =
      { iterOnce dev s with socketOpen := false } := by
  cases hq : s.queue with
  | nil => simp [iterOnce, hq]
  | cons f r => by_cases hdev : dev s.attempts <;> simp [iterOnce, hq, hdev]

/-! ## Claims -/

/-- Claim C1. Single-flight invariant: in every reachable state, for every
device behaviour and every interleaving of fragment arrivals, timer firings,
idle delays and cleanup, at most one drain-loop continuation exists (at most
one logical invocation is in the Draining state); moreover a `playNextChunk`
call that observes `isPlaying = true` returns at once without entering the
loop — the read of `isPlaying` and the set to `true` are one atomic step of
the embedding because the source has no suspension point between them. -/
theorem claim1_single_flight :
    (∀ (dev : ℕ → Bool) (evs : List Ev), (run dev evs).tasks.length ≤ 1) ∧
    (∀ (dev : ℕ → Bool) (s : PipeState), s.isPlaying = true → playNextChunk dev s = s) :=
  ⟨fun dev evs => (inv_run dev evs).single, playNextChunk_busy⟩

theorem claim1_witness :
    (run devAlwaysOk [Ev.audio "pcm16" "AAA=" 24000]).tasks.length ≤ 1 ∧
    playNextChunk devAlwaysOk { init with isPlaying := true, socketOpen := false } =
      { init with isPlaying := true, socketOpen := false } :=
  ⟨claim1_single_flight.1 devAlwaysOk _,
   claim1_single_flight.2 devAlwaysOk _ rfl⟩

/-- Claim C2. FIFO ordering: in every reachable state, under any interleaving
of arrivals and drain progress, the valid fragments enqueued so far are
exactly the fragments dequeued from the front (in dequeue order) followed by
the current queue contents — no reordering, duplication or skipping; and
when the output device accepts every submission, the submission log is
exactly the arrival-order prefix of the enqueued fragments. -/
theorem claim2_fifo_order :
    (∀ (dev : ℕ → Bool) (evs : List Ev),
      (run dev evs).arrived = (run dev evs).dequeued ++ (run dev evs).queue) ∧
    (∀ evs : List Ev,
      (run devAlwaysOk evs).arrived =
        (run devAlwaysOk evs).played.map Submission.frag ++ (run devAlwaysOk evs).queue) :=
  ⟨fun dev evs => (inv_run dev evs).fifo,
   fun evs => by
     have h := inv_run devAlwaysOk evs
     rw [h.fifo, h.playedAll (fun _ => rfl)]⟩

/-- Claim C3. Decode correctness: for every payload whose base64 decode
succeeds with an even byte length, the handler decodes it by reinterpreting
the bytes as signed 16-bit little-endian integers and mapping each `s` to
`s / 32768`: the output length is half the byte length, every sample lies in
the half-open range `[-1, 1)`, output index `i` reads byte pair
`(2i, 2i+1)` little-endian, and the boundary values map as `-32768 ↦ -1`,
`0 ↦ 0`, `32767 ↦ 32767/32768`.  Decode is a pure function of the payload
(purity and non-mutation are by construction of the embedding). -/
theorem claim3_decode_correct (audio : String) (bytes : List ℕ)
    (hatob : atob audio = some bytes) (heven : bytes.length % 2 = 0) :
    decodeFragment audio = some (bytesToSamples bytes) ∧
    (bytesToSamples bytes).length = bytes.length / 2 ∧
    (∀ v ∈ bytesToSamples bytes, -1 ≤ v ∧ v < 1) ∧
    (∀ i : ℕ, 2 * i + 1 < bytes.length →
      (bytesToSamples bytes)[i]? =
        some ((toInt16 (bytes.getD (2 * i) 0) (bytes.getD (2 * i + 1) 0) : ℚ) / 32768)) ∧
    bytesToSamples [0, 128] = [-1] ∧
    bytesToSamples [0, 0] = [0] ∧
    bytesToSamples [255, 127] = [(32767 : ℚ) / 32768] := by
  refine ⟨by simp [decodeFragment, hatob, heven], bytesToSamples_length bytes,
    bytesToSamples_mem_range bytes, fun i hi => bytesToSamples_getElem? bytes i hi,
    ?_, ?_, ?_⟩ <;> norm_num [bytesToSamples, toInt16]

theorem claim3_witness :
    decodeFragment "AAA=" = some (bytesToSamples [0, 0]) :=
  (claim3_decode_correct "AAA=" [0, 0] (by decide) (by decide)).1

/-- Claim C4 (counterexample). The claim states that a fragment with malformed
base64 or an odd decoded byte length is dropped "without raising any error
to the caller".  The handler has no try/catch: on the payload `"AA=="`
(valid base64, one decoded byte), `new Int16Array(buffer)` throws and the
exception escapes the handler. -/
theorem claim4_counterexample :
    handleAudioChunk devAlwaysOk "pcm16" "AA==" init = .error () := rfl

/-- Claim C4 (amended). A fragment whose payload is malformed base64 or has an
odd decoded byte length is never enqueued and leaves the pipeline state
unchanged, but the decode exception propagates out of the handler rather
than being silently absorbed; because the throw precedes any mutation,
every valid fragment received before or after it is still decoded, enqueued
and played in order (shown on the trace valid – corrupt – valid). -/
theorem claim4_amended :
    (∀ (dev : ℕ → Bool) (audio : String) (sr : ℕ) (s : PipeState),
      decodeFragment audio = none →
      handleAudioChunk dev "pcm16" audio s = .error () ∧
      stepEv dev (.audio "pcm16" audio sr) s = s) ∧
    (run devAlwaysOk [.audio "pcm16" "AAA=" 24000, .audio "pcm16" "AA==" 24000,
        .audio "pcm16" "//8=" 24000, .timer, .timer]).played.map Submission.frag =
      [bytesToSamples [0, 0], bytesToSamples [255, 255]] := by
  constructor
  · intro dev audio sr s hdec
    have h1 : handleAudioChunk dev "pcm16" audio s = .error () := by
      simp [handleAudioChunk, hdec]
    refine ⟨h1, ?_⟩
    simp only [stepEv]
    by_cases hopen : s.socketOpen
    · simp [hopen, h1]
    · simp [hopen]
  · rfl

theorem claim4_witness :
    handleAudioChunk devAlwaysOk "pcm16" "AA==" init = .error () ∧
    stepEv devAlwaysOk (.audio "pcm16" "AA==" 24000) init = init :=
  claim4_amended.1 devAlwaysOk "AA==" 24000 init (by decide)

/-- Claim C5. Gapless scheduling: in every reachable state, any two adjacent
submissions made by the same drain loop satisfy
`succ.time = pred.time + pred.length / SAMPLE_RATE` — the successor is
submitted exactly at the nominal end time of the predecessor's playback,
with zero intentional gap and no overlap — and every suspended drain loop's
wake deadline is exactly the nominal end time of the submission it just
made, i.e. the loop suspends for exactly `sample_count / sample_rate`
seconds between consecutive submissions of one drain. -/
theorem claim5_gapless (dev : ℕ → Bool) (evs : List Ev) :
    Gapless (run dev evs).played ∧ SuspendExact (run dev evs) :=
  ⟨(inv_run dev evs).gapless, suspend_exact_of_inv dev _ (inv_run dev evs)⟩

/-- Claim C6 (code bug). The spec requires that when the output device rejects
a submission the fragment is dropped, the loop proceeds to the next queued
fragment, and `isPlaying` is still cleared at loop exit.  The drain loop has
no try/catch, so on the trace where the device rejects the first submission
while a second valid fragment is queued, the loop aborts instead: nothing is
ever submitted, the queued fragment is stuck in the queue, no continuation
survives, and `isPlaying` remains `true`, so every later wake returns
immediately — the scheduler is permanently wedged in Draining. -/
theorem claim6_reject_wedges :
    (run devAlwaysReject rejectEvs).isPlaying = true ∧
    (run devAlwaysReject rejectEvs).tasks = [] ∧
    (run devAlwaysReject rejectEvs).played = [] ∧
    (run devAlwaysReject rejectEvs).queue = [bytesToSamples [255, 255]] ∧
    playNextChunk devAlwaysReject (run devAlwaysReject rejectEvs) =
      run devAlwaysReject rejectEvs :=
  ⟨rfl, rfl, rfl, rfl, playNextChunk_busy _ _ rfl⟩

/-- Claim C7. A wake while a drain is in flight is a no-op that starts no
second loop, and the fragments queued at any moment while a drain
continuation is suspended — including ones appended after the drain
started — are all played by that same drain loop (every new submission
carries the current drain id), without the loop being re-invoked: letting
its timer fire `queue.length + 1` times plays the whole queue in order and
only then clears `isPlaying`. -/
theorem claim7_wake_noop_drain_continues :
    (∀ (dev : ℕ → Bool) (s : PipeState), s.isPlaying = true → playNextChunk dev s = s) ∧
    (∀ (s : PipeState) (d : ℚ), s.tasks = [d] → DrainsQueue s) := by
  refine ⟨playNextChunk_busy, ?_⟩
  intro s d ht
  exact drain_all s.queue s d rfl ht

theorem claim7_witness :
    playNextChunk devAlwaysOk { init with isPlaying := true } =
      { init with isPlaying := true } ∧
    DrainsQueue { init with isPlaying := true, drains := 1, queue := [[0]], tasks := [0] } :=
  ⟨claim7_wake_noop_drain_continues.1 devAlwaysOk _ rfl,
   claim7_wake_noop_drain_continues.2 _ 0 rfl⟩

/-- Claim C8 (counterexample). The only teardown the component has — the
`useEffect` cleanup, `socket.disconnect()` — does not stop the drain loop:
issued while the scheduler is Draining with a further fragment queued, the
loop still dequeues and submits that fragment afterwards, contradicting
"causes the loop to exit before processing any further queued fragments". -/
theorem claim8_counterexample :
    (run devAlwaysOk cancelEvs).played.map Submission.frag =
      [bytesToSamples [0, 0], bytesToSamples [255, 255]] := rfl

/-- Claim C8 (amended). The code exposes no cancellation signal: the drain
loop checks only the queue at the top of each iteration, and the effect
cleanup only closes the socket, leaving the queue, the `isPlaying` flag, any
suspended drain continuation and the playback log untouched; the timer step
commutes with cleanup, so an in-flight drain proceeds exactly as if no
teardown had happened and teardown waits for the full queue to drain. -/
theorem claim8_amended (dev : ℕ → Bool) (s : PipeState) :
    stepEv dev .cleanup s = { s with socketOpen := false } ∧
    fireTimer dev (stepEv dev .cleanup s) = stepEv dev .cleanup (fireTimer dev s) := by
  refine ⟨rfl, ?_⟩
  show fireTimer dev { s with socketOpen := false } =
    { fireTimer dev s with socketOpen := false }
  cases ht : s.tasks with
  | nil => simp [fireTimer, ht]
  | cons d rest =>
    simp only [fireTimer, ht]
    exact iterOnce_socket dev { s with tasks := rest, now := d }

/-- Claim C9. Format filter: a fragment whose `format` tag differs from
`"pcm16"` is silently dropped before decoding — the handler returns with the
state unchanged (nothing decoded, nothing enqueued, no wake triggered, no
error raised), and dispatching the event is a no-op on the pipeline. -/
theorem claim9_format_filter (dev : ℕ → Bool) (format audio : String) (sr : ℕ)
    (s : PipeState) (hfmt : format ≠ "pcm16") :
    handleAudioChunk dev format audio s = .ok s ∧
    stepEv dev (.audio format audio sr) s = s := by
  have h1 : handleAudioChunk dev format audio s = .ok s := by
    simp [handleAudioChunk, hfmt]
  refine ⟨h1, ?_⟩
  simp only [stepEv]
  by_cases hopen : s.socketOpen
  · simp [hopen, h1]
  · simp [hopen]

theorem claim9_witness :
    handleAudioChunk devAlwaysOk "mp3" "AAA=" init = .ok init ∧
    stepEv devAlwaysOk (.audio "mp3" "AAA=" 24000) init = init :=
  claim9_format_filter devAlwaysOk "mp3" "AAA=" 24000 init (by decide)

/-- Claim C10. A wake issued when the audio context handle is missing or the
playback queue is empty returns immediately without entering the Draining
state, leaving the whole state (queue and flag included) unchanged; and
`isPlaying` is never set from `false` to `true` by a wake unless the
context exists and the queue is non-empty at that moment. -/
theorem claim10_idle_wake_noop (dev : ℕ → Bool) (s : PipeState) :
    ((s.hasCtx = false ∨ s.queue = []) → playNextChunk dev s = s) ∧
    (s.isPlaying = false → (playNextChunk dev s).isPlaying = true →
      s.hasCtx = true ∧ s.queue ≠ []) := by
  constructor
  · intro hguard
    by_cases h1 : s.isPlaying
    · exact playNextChunk_busy dev s (by simpa using h1)
    · simp [playNextChunk, h1, hguard]
  · intro hnot hset
    by_cases hguard : s.hasCtx = false ∨ s.queue = []
    · have hid : playNextChunk dev s = s := by
        by_cases h1 : s.isPlaying
        · exact playNextChunk_busy dev s (by simpa using h1)
        · simp [playNextChunk, h1, hguard]
      rw [hid] at hset
      rw [hset] at hnot
      exact absurd hnot (by simp)
    · push_neg at hguard
      refine ⟨?_, hguard.2⟩
      simpa using hguard.1

theorem claim10_witness :
    playNextChunk devAlwaysOk init = init :=
  (claim10_idle_wake_noop devAlwaysOk init).1 (Or.inr rfl)

end RealtimeVoiceChat
